import Mathlib

/- Verification development for the MOMA-RL autonomous-driving repository.
   Shallow embedding of the replay buffer, data logger, reward computation and
   training utilities (src/utils.py, src/MOMA_DQN.py, src/envs/mo_highway_env.py),
   followed by theorems about the specification claims.
   All real-number computations of the source are embedded over the rationals. -/

namespace MomaRL

/-! ## Epsilon decay

`MOMA_DQN.reduce_epsilon` (MOMA_DQN.py lines 436-437):
`self.epsilon = max(eps_end, self.epsilon - (eps_start-eps_end)/max_iteration)`

The computation runs on python floats (IEEE binary64), so it is embedded over
dyadic rationals with explicit rounding to 53 significant bits, round to
nearest with ties to even.  All values arising here are well inside the normal
range of binary64 (no overflow, underflow or subnormals), where this model
coincides with IEEE arithmetic. -/

/-- A dyadic rational `num / 2^exp`: the exact value of a binary64 float. -/
structure Dyadic where
  num : ℤ
  exp : ℕ
deriving DecidableEq

/-- Number of binary digits of `n` (fuel-driven so that it reduces in the
kernel; the fuel is ample for every quantity arising below). -/
def bitLen : ℕ → ℕ → ℕ
  | 0, _ => 0
  | fuel + 1, n => if n = 0 then 0 else bitLen fuel (n / 2) + 1

/-- Round `n / 2^shift` to the nearest integer, ties to even (`shift ≥ 1`). -/
def roundMantissa (n shift : ℕ) : ℕ :=
  let q := n / 2 ^ shift
  let r := n % 2 ^ shift
  let half := 2 ^ (shift - 1)
  if r < half then q
  else if half < r then q + 1
  else if q % 2 = 0 then q else q + 1

/-- Round an exact dyadic value to 53 significant bits (binary64 precision),
to nearest, ties to even. -/
def Dyadic.round (d : Dyadic) : Dyadic :=
  let n := d.num.natAbs
  let b := bitLen 4096 n
  if b ≤ 53 then d
  else
    let shift := b - 53
    let m := roundMantissa n shift
    let msigned : ℤ := if d.num < 0 then -(m : ℤ) else (m : ℤ)
    if shift ≤ d.exp then ⟨msigned, d.exp - shift⟩
    else ⟨msigned * 2 ^ (shift - d.exp), 0⟩

/-- binary64 subtraction: the exact difference, rounded. -/
def Dyadic.sub (a b : Dyadic) : Dyadic :=
  let e := max a.exp b.exp
  Dyadic.round ⟨a.num * 2 ^ (e - a.exp) - b.num * 2 ^ (e - b.exp), e⟩

/-- binary64 division of a float by a (python int) natural number `k`: the
quotient is computed to 200 guard bits and rounded to nearest, a remainder
making strict ties impossible to miss; ties to even. -/
def Dyadic.divNat (d : Dyadic) (k : ℕ) : Dyadic :=
  if d.num = 0 then ⟨0, 0⟩
  else
    let S := 200
    let N := d.num.natAbs * 2 ^ S
    let Q := N / k
    let R := N % k
    let b := bitLen 4096 Q
    if b ≤ 53 then ⟨(if d.num < 0 then -(Q : ℤ) else (Q : ℤ)), d.exp + S⟩
    else
      let shift := b - 53
      let q := Q / 2 ^ shift
      let r := Q % 2 ^ shift
      let half := 2 ^ (shift - 1)
      let up : Bool := if r < half then false
        else if half < r then true
        else if R ≠ 0 then true
        else q % 2 = 1
      let m := if up then q + 1 else q
      let msigned : ℤ := if d.num < 0 then -(m : ℤ) else (m : ℤ)
      if shift ≤ d.exp + S then ⟨msigned, d.exp + S - shift⟩
      else ⟨msigned * 2 ^ (shift - (d.exp + S)), 0⟩

/-- python `max(a, b)` on floats: `b` if `a < b` else `a` (exact comparison). -/
def Dyadic.fmax (a b : Dyadic) : Dyadic :=
  if a.num * (2 : ℤ) ^ b.exp < b.num * (2 : ℤ) ^ a.exp then b else a

/-- One `reduce_epsilon` step over binary64 floats, floor-clamped at
`epsEnd`: `max(eps_end, epsilon - (eps_start - eps_end)/max_iteration)`. -/
def reduceEpsilon (maxIteration : ℕ) (epsStart epsEnd epsilon : Dyadic) : Dyadic :=
  Dyadic.fmax epsEnd (epsilon.sub ((epsStart.sub epsEnd).divNat maxIteration))

/-- The binary64 float nearest the python literal `0.9`
(= 8106479329266893 / 2^53). -/
def float09 : Dyadic := Dyadic.divNat ⟨9, 0⟩ 10

/-- The float `0`. -/
def float0 : Dyadic := ⟨0, 0⟩

/-- A decay step with `eps_end = 0` never produces a negative epsilon: the
`max` either returns `0` itself or a value the comparison proved positive. -/
theorem reduceEpsilon_num_nonneg (maxIteration : ℕ) (epsStart epsilon : Dyadic) :
    0 ≤ (reduceEpsilon maxIteration epsStart float0 epsilon).num := by
  unfold reduceEpsilon Dyadic.fmax float0
  set w := epsilon.sub ((epsStart.sub ⟨0, 0⟩).divNat maxIteration) with hw
  by_cases h : (Dyadic.mk 0 0).num * (2 : ℤ) ^ w.exp < w.num * (2 : ℤ) ^ (Dyadic.mk 0 0).exp
  · rw [if_pos h]
    have h2 : (0 : ℤ) < w.num := by simpa using h
    exact le_of_lt h2
  · rw [if_neg h]

set_option maxRecDepth 100000 in
/-- C8 counterexample: under the source's IEEE binary64 arithmetic, epsilon
after 10 `reduce_epsilon` calls from 0.9 (with `max_iteration = 10`,
`eps_end = 0`) is `18 / 2^56 = 2.498001805406602e-16`, not exactly 0. -/
theorem C8_ten_calls_not_exactly_zero :
    ((reduceEpsilon 10 float09 float0)^[10] float09).num ≠ 0 ∧
    (reduceEpsilon 10 float09 float0)^[10] float09 = ⟨18, 56⟩ := by
  constructor
  · decide
  · decide

set_option maxRecDepth 100000 in
/-- C8 (amended): starting from 0.9 with `max_iteration = 10`, `eps_end = 0`,
after 10 calls epsilon is still positive (though below `2^-51`); it reaches
exactly 0 on the 11th call, every further call leaves it at 0, and it never
goes below 0. -/
theorem C8_reduce_epsilon_float_boundary :
    0 < ((reduceEpsilon 10 float09 float0)^[10] float09).num ∧
    ((reduceEpsilon 10 float09 float0)^[10] float09).num * 2 ^ 51 <
      (2 : ℤ) ^ ((reduceEpsilon 10 float09 float0)^[10] float09).exp ∧
    (reduceEpsilon 10 float09 float0)^[11] float09 = float0 ∧
    (∀ k : ℕ, (reduceEpsilon 10 float09 float0)^[11 + k] float09 = float0) ∧
    (∀ k : ℕ, 0 ≤ ((reduceEpsilon 10 float09 float0)^[k] float09).num) := by
  have h11 : (reduceEpsilon 10 float09 float0)^[11] float09 = float0 := by decide
  have hfix : reduceEpsilon 10 float09 float0 float0 = float0 := by decide
  have hiter0 : ∀ k : ℕ, (reduceEpsilon 10 float09 float0)^[k] float0 = float0 := by
    intro k
    induction k with
    | zero => rfl
    | succ n ih => rw [Function.iterate_succ_apply', ih, hfix]
  refine ⟨by decide, by decide, h11, ?_, ?_⟩
  · intro k
    rw [add_comm, Function.iterate_add_apply, h11, hiter0]
  · intro k
    cases k with
    | zero => decide
    | succ n =>
      rw [Function.iterate_succ_apply']
      exact reduceEpsilon_num_nonneg _ _ _

/-! ## Replay buffer

`ReplayBuffer` (utils.py lines 50-140).  The torch matrix `self.buffer` of
shape `(size, observation_space_size*2 + num_objectives + 3)` is embedded as a
list of `size` rows; each row is a list of rationals. -/

/-- State of a `ReplayBuffer` (constructor, utils.py lines 52-66). -/
structure ReplayBuffer where
  size : ℕ
  observationSpaceSize : ℕ
  numObjectives : ℕ
  importanceSampling : Bool
  prioritiseCrashes : Bool
  buffer : List (List ℚ)
  runningIndex : ℕ
  numElements : ℕ

/-- `ReplayBuffer.__init__`: a zero-filled matrix of `buffer_size` rows of width
`observation_space_shape*2 + num_objectives + 3`, with both counters at 0. -/
def ReplayBuffer.init (bufferSize observationSpaceShape numObjectives : ℕ)
    (importanceSampling prioritiseCrashes : Bool) : ReplayBuffer where
  size := bufferSize
  observationSpaceSize := observationSpaceShape
  numObjectives := numObjectives
  importanceSampling := importanceSampling
  prioritiseCrashes := prioritiseCrashes
  buffer := List.replicate bufferSize
    (List.replicate (observationSpaceShape * 2 + numObjectives + 3) 0)
  runningIndex := 0
  numElements := 0

/-- `ReplayBuffer.__increment_indices` (utils.py lines 89-93): advance
`running_index` modulo the capacity and saturate `num_elements` at capacity. -/
def ReplayBuffer.incrementIndices (b : ReplayBuffer) : ReplayBuffer :=
  { b with
    runningIndex := (b.runningIndex + 1) % b.size
    numElements := if b.numElements < b.size then b.numElements + 1 else b.numElements }

/-- Writing one assembled row at `running_index` followed by
`__increment_indices`: the body of one iteration of `push` (utils.py
lines 76-78 and 85-87). -/
def ReplayBuffer.pushRow (b : ReplayBuffer) (row : List ℚ) : ReplayBuffer :=
  ReplayBuffer.incrementIndices { b with buffer := b.buffer.set b.runningIndex row }

/-- `ReplayBuffer.push` in the single-sample case (`num_samples == 1`, utils.py
lines 68-78).  The stored row is the concatenation
`obs ++ action ++ next_obs ++ reward ++ terminated ++ importance_sampling_id`;
the id is forced to `[0]` whenever importance sampling is off, and must be
supplied when it is on (the assertion on line 70).  The `num_samples > 1`
branch repeats the same write, once per sample, via `pushRow`. -/
def ReplayBuffer.push (b : ReplayBuffer) (obs action nextObs reward terminated : List ℚ)
    (importanceSamplingId : Option (List ℚ)) : Except String ReplayBuffer :=
  if b.importanceSampling ∧ importanceSamplingId = none then
    .error "If importance sampling is activated, you need to provide a corresponding identifier"
  else
    let isId := if b.importanceSampling then importanceSamplingId.getD [0] else [0]
    .ok (b.pushRow (obs ++ action ++ nextObs ++ reward ++ terminated ++ isId))

/-- Pushing a sequence of assembled transition rows, one `push` call each. -/
def ReplayBuffer.pushList (b : ReplayBuffer) (rows : List (List ℚ)) : ReplayBuffer :=
  rows.foldl ReplayBuffer.pushRow b

/-- With importance sampling disabled, a single-sample `push` always succeeds
and stores the assembled row with id column `[0]`. -/
theorem ReplayBuffer.push_eq_pushRow (b : ReplayBuffer)
    (obs action nextObs reward terminated : List ℚ) (idArg : Option (List ℚ))
    (hIS : b.importanceSampling = false) :
    b.push obs action nextObs reward terminated idArg =
      .ok (b.pushRow (obs ++ action ++ nextObs ++ reward ++ terminated ++ [0])) := by
  unfold ReplayBuffer.push
  rw [hIS]
  simp

theorem ReplayBuffer.pushRow_size (b : ReplayBuffer) (row : List ℚ) :
    (b.pushRow row).size = b.size := rfl

theorem ReplayBuffer.pushRow_bufferLength (b : ReplayBuffer) (row : List ℚ) :
    (b.pushRow row).buffer.length = b.buffer.length := by
  simp [ReplayBuffer.pushRow, ReplayBuffer.incrementIndices]

theorem ReplayBuffer.pushList_size (rows : List (List ℚ)) :
    ∀ b : ReplayBuffer, (b.pushList rows).size = b.size := by
  induction rows with
  | nil => intro b; rfl
  | cons r rs ih =>
    intro b
    show ((b.pushRow r).pushList rs).size = b.size
    rw [ih, ReplayBuffer.pushRow_size]

theorem ReplayBuffer.pushList_bufferLength (rows : List (List ℚ)) :
    ∀ b : ReplayBuffer, (b.pushList rows).buffer.length = b.buffer.length := by
  induction rows with
  | nil => intro b; rfl
  | cons r rs ih =>
    intro b
    show ((b.pushRow r).pushList rs).buffer.length = b.buffer.length
    rw [ih, ReplayBuffer.pushRow_bufferLength]

/-- Counter evolution: `running_index` advances by the number of pushes modulo
the capacity. -/
theorem ReplayBuffer.pushList_runningIndex (rows : List (List ℚ)) :
    ∀ b : ReplayBuffer, b.runningIndex < b.size →
      (b.pushList rows).runningIndex = (b.runningIndex + rows.length) % b.size := by
  induction rows with
  | nil =>
    intro b hb
    show b.runningIndex = (b.runningIndex + 0) % b.size
    rw [Nat.add_zero, Nat.mod_eq_of_lt hb]
  | cons r rs ih =>
    intro b hb
    have hpos : 0 < b.size := Nat.pos_of_ne_zero (by intro h; rw [h] at hb; exact Nat.not_lt_zero _ hb)
    have h1 : (b.pushRow r).runningIndex < (b.pushRow r).size := Nat.mod_lt _ hpos
    show ((b.pushRow r).pushList rs).runningIndex = (b.runningIndex + (rs.length + 1)) % b.size
    rw [ih _ h1]
    show ((b.runningIndex + 1) % b.size + rs.length) % b.size = _
    rw [Nat.mod_add_mod, Nat.add_assoc, Nat.add_comm 1 rs.length]

/-- Counter evolution: `num_elements` saturates at the capacity. -/
theorem ReplayBuffer.pushList_numElements (rows : List (List ℚ)) :
    ∀ b : ReplayBuffer, b.numElements ≤ b.size →
      (b.pushList rows).numElements = min (b.numElements + rows.length) b.size := by
  induction rows with
  | nil =>
    intro b hb
    show b.numElements = min (b.numElements + 0) b.size
    rw [Nat.add_zero, min_eq_left hb]
  | cons r rs ih =>
    intro b hb
    have hle : (b.pushRow r).numElements ≤ (b.pushRow r).size := by
      show (if b.numElements < b.size then b.numElements + 1 else b.numElements) ≤ b.size
      by_cases h : b.numElements < b.size
      · rw [if_pos h]; exact h
      · rw [if_neg h]; exact hb
    show ((b.pushRow r).pushList rs).numElements = min (b.numElements + (rs.length + 1)) b.size
    rw [ih _ hle]
    show min ((if b.numElements < b.size then b.numElements + 1 else b.numElements) + rs.length)
      b.size = _
    by_cases h : b.numElements < b.size
    · rw [if_pos h]
      congr 1
      omega
    · rw [if_neg h]
      have hEq : b.numElements = b.size := Nat.le_antisymm hb (Nat.le_of_not_lt h)
      omega

/-- The index of the last push (among `len` pushes starting with the write
cursor at `start`) that wrote to buffer slot `slot`, if any: pushes are
numbered `0, ..., len-1` and push `k` writes slot `(start + k) % cap`. -/
def lastWrite (start len cap slot : ℕ) : Option ℕ :=
  ((List.range len).filter (fun k => (start + k) % cap = slot)).getLast?

theorem lastWrite_succ (start len cap slot : ℕ) :
    lastWrite start (len + 1) cap slot =
      if (start + len) % cap = slot then some len else lastWrite start len cap slot := by
  unfold lastWrite
  rw [show len + 1 = Nat.succ len from rfl, List.range_succ, List.filter_append]
  by_cases h : (start + len) % cap = slot
  · rw [if_pos h]
    have : List.filter (fun k => decide ((start + k) % cap = slot)) [len] = [len] := by
      simp [h]
    rw [this, List.getLast?_concat]
  · rw [if_neg h]
    have : List.filter (fun k => decide ((start + k) % cap = slot)) [len] = [] := by
      simp [h]
    rw [this, List.append_nil]

theorem lastWrite_lt (start len cap slot k : ℕ) :
    lastWrite start len cap slot = some k → k < len := by
  induction len generalizing k with
  | zero =>
    intro h
    simp [lastWrite] at h
  | succ n ih =>
    intro h
    rw [lastWrite_succ] at h
    by_cases hc : (start + n) % cap = slot
    · rw [if_pos hc] at h
      have : n = k := by injection h
      omega
    · rw [if_neg hc] at h
      exact Nat.lt_succ_of_lt (ih k h)

/-- After pushing `rows` into buffer `b`, slot `i` holds the row of the last
push that wrote to it, and the original contents where no push wrote. -/
theorem ReplayBuffer.pushList_contents (rows : List (List ℚ)) :
    ∀ b : ReplayBuffer, 0 < b.size → b.buffer.length = b.size → b.runningIndex < b.size →
      ∀ i : ℕ, i < b.size →
        (b.pushList rows).buffer[i]? =
          match lastWrite b.runningIndex rows.length b.size i with
          | some k => rows[k]?
          | none => b.buffer[i]? := by
  induction rows using List.reverseRecOn with
  | nil =>
    intro b _ _ _ i _
    show b.buffer[i]? = _
    rfl
  | append_singleton ts t ih =>
    intro b hpos hlen hri i hi
    have hfold : b.pushList (ts ++ [t]) = (b.pushList ts).pushRow t := by
      unfold ReplayBuffer.pushList
      rw [List.foldl_append]
      rfl
    have hsize : (b.pushList ts).size = b.size := ReplayBuffer.pushList_size ts b
    have hblen : (b.pushList ts).buffer.length = b.size := by
      rw [ReplayBuffer.pushList_bufferLength ts b, hlen]
    have hrix : (b.pushList ts).runningIndex = (b.runningIndex + ts.length) % b.size :=
      ReplayBuffer.pushList_runningIndex ts b hri
    have hjlt : (b.runningIndex + ts.length) % b.size < b.size := Nat.mod_lt _ hpos
    rw [hfold]
    show ((b.pushList ts).buffer.set (b.pushList ts).runningIndex t)[i]? = _
    rw [List.getElem?_set, hrix, hblen]
    simp only [List.length_append, List.length_singleton]
    rw [lastWrite_succ]
    by_cases hcase : (b.runningIndex + ts.length) % b.size = i
    · rw [if_pos hcase, if_pos hcase, if_pos (hcase ▸ hjlt)]
      show some t = (ts ++ [t])[ts.length]?
      rw [List.getElem?_append_right (Nat.le_refl ts.length), Nat.sub_self]
      rfl
    · rw [if_neg hcase, if_neg hcase, ih b hpos hlen hri i hi]
      cases hlw : lastWrite b.runningIndex ts.length b.size i with
      | none => rfl
      | some k =>
        have hk : k < ts.length := lastWrite_lt _ _ _ _ _ hlw
        show ts[k]? = (ts ++ [t])[k]?
        rw [List.getElem?_append, if_pos hk]

/-- Successor step of `%`: it either increments or wraps to zero. -/
theorem mod_succ_cases (x cap : ℕ) (hcap : 0 < cap) :
    (x + 1) % cap = x % cap + 1 ∨ ((x + 1) % cap = 0 ∧ x % cap + 1 = cap) := by
  have hx : x % cap < cap := Nat.mod_lt _ hcap
  have hsplit : x + 1 = x % cap + 1 + x / cap * cap := by
    have h0 := Nat.div_add_mod x cap
    rw [Nat.mul_comm] at h0
    omega
  rcases Nat.lt_or_ge (x % cap + 1) cap with h | h
  · left
    rw [hsplit, Nat.add_mul_mod_self_right, Nat.mod_eq_of_lt h]
  · right
    have heq : x % cap + 1 = cap := by omega
    refine ⟨?_, heq⟩
    rw [hsplit, Nat.add_mul_mod_self_right, heq, Nat.mod_self]

/-- Closed form for `lastWrite` from a fresh cursor: slot `slot < cap` was last
written by push `len - 1 - ((len - 1 - slot) % cap)`, provided any push wrote it. -/
theorem lastWrite_zero_formula (cap : ℕ) (hcap : 0 < cap) :
    ∀ len slot : ℕ, slot < cap →
      lastWrite 0 len cap slot =
        if slot < len then some (len - 1 - ((len - 1 - slot) % cap)) else none := by
  intro len
  induction len with
  | zero =>
    intro slot _
    rw [if_neg (Nat.not_lt_zero slot)]
    rfl
  | succ n ih =>
    intro slot hs
    rw [lastWrite_succ, Nat.zero_add]
    by_cases h : n % cap = slot
    · rw [if_pos h]
      have hslot_le : slot ≤ n := h ▸ Nat.mod_le n cap
      have hmodeq : slot ≡ n [MOD cap] := by
        unfold Nat.ModEq
        rw [Nat.mod_eq_of_lt hs, h]
      have hdvd : cap ∣ n - slot := (Nat.modEq_iff_dvd' hslot_le).mp hmodeq
      have hz : (n - slot) % cap = 0 := Nat.mod_eq_zero_of_dvd hdvd
      rw [if_pos (Nat.lt_succ_of_le hslot_le)]
      have : n + 1 - 1 - ((n + 1 - 1 - slot) % cap) = n := by
        have h1 : n + 1 - 1 = n := rfl
        rw [h1, hz]
        omega
      rw [this]
    · rw [if_neg h, ih slot hs]
      by_cases hlt : slot < n
      · rw [if_pos hlt, if_pos (Nat.lt_succ_of_lt hlt)]
        have hne : (n - slot) % cap ≠ 0 := by
          intro h0
          have hdvd : cap ∣ n - slot := Nat.dvd_iff_mod_eq_zero.mpr h0
          have : slot ≡ n [MOD cap] := (Nat.modEq_iff_dvd' (Nat.le_of_lt hlt)).mpr hdvd
          unfold Nat.ModEq at this
          rw [Nat.mod_eq_of_lt hs] at this
          exact h this.symm
        have hx : n - slot = (n - 1 - slot) + 1 := by omega
        rw [hx] at hne
        rcases mod_succ_cases (n - 1 - slot) cap hcap with hc | hc
        · congr 1
          rw [show n + 1 - 1 - slot = n - 1 - slot + 1 from by omega, hc]
          omega
        · exact absurd hc.1 hne
      · have hne2 : ¬ slot < n + 1 := by
          intro hcon
          have : slot = n := by omega
          rw [← this] at h
          exact h (Nat.mod_eq_of_lt hs)
        rw [if_neg hlt, if_neg hne2]

/-- C3: pushing `k` single-sample transitions into a fresh buffer of capacity
`C` yields `num_elements = k` and `running_index = k % C` when `k ≤ C`; and
when `k = C + m` with `1 ≤ m ≤ C`, `num_elements = C`, the `m` oldest rows
(slots `0..m-1`) hold the `m` newest transitions, and every other slot `j`
still holds the transition originally written to it. -/
theorem C3_replay_buffer_ring (C obsLen numObj : ℕ) (IS PC : Bool) (hC : 0 < C)
    (rows : List (List ℚ)) :
    (rows.length ≤ C →
      ((ReplayBuffer.init C obsLen numObj IS PC).pushList rows).numElements = rows.length ∧
      ((ReplayBuffer.init C obsLen numObj IS PC).pushList rows).runningIndex = rows.length % C) ∧
    (∀ m : ℕ, 1 ≤ m → m ≤ C → rows.length = C + m →
      ((ReplayBuffer.init C obsLen numObj IS PC).pushList rows).numElements = C ∧
      (∀ i : ℕ, i < m →
        ((ReplayBuffer.init C obsLen numObj IS PC).pushList rows).buffer[i]? = rows[C + i]?) ∧
      (∀ j : ℕ, m ≤ j → j < C →
        ((ReplayBuffer.init C obsLen numObj IS PC).pushList rows).buffer[j]? = rows[j]?)) := by
  set b0 := ReplayBuffer.init C obsLen numObj IS PC with hb0
  have hsize : b0.size = C := rfl
  have hblen : b0.buffer.length = b0.size := by
    show (List.replicate C _).length = C
    exact List.length_replicate _ _
  have hri : b0.runningIndex < b0.size := hC
  have hne0 : b0.numElements = 0 := rfl
  constructor
  · intro hle
    constructor
    · rw [ReplayBuffer.pushList_numElements rows b0 (by rw [hne0]; exact Nat.zero_le _)]
      rw [hne0, hsize, Nat.zero_add]
      exact min_eq_left hle
    · rw [ReplayBuffer.pushList_runningIndex rows b0 hri]
      show (0 + rows.length) % C = rows.length % C
      rw [Nat.zero_add]
  · intro m hm1 hmC hL
    refine ⟨?_, ?_, ?_⟩
    · rw [ReplayBuffer.pushList_numElements rows b0 (by rw [hne0]; exact Nat.zero_le _)]
      rw [hne0, hsize, Nat.zero_add, hL]
      exact min_eq_right (Nat.le_add_right C m)
    · intro i hi
      have hiC : i < b0.size := by rw [hsize]; omega
      have hc := ReplayBuffer.pushList_contents rows b0 hC hblen hri i hiC
      rw [show b0.runningIndex = 0 from rfl, hsize, hL] at hc
      rw [lastWrite_zero_formula C hC (C + m) i (by omega)] at hc
      rw [if_pos (by omega : i < C + m)] at hc
      have hmod : (C + m - 1 - i) % C = m - 1 - i := by
        rw [show C + m - 1 - i = C + (m - 1 - i) from by omega, Nat.add_mod_left]
        exact Nat.mod_eq_of_lt (by omega)
      rw [hmod, show C + m - 1 - (m - 1 - i) = C + i from by omega] at hc
      exact hc
    · intro j hmj hjC
      have hjC' : j < b0.size := by rw [hsize]; exact hjC
      have hc := ReplayBuffer.pushList_contents rows b0 hC hblen hri j hjC'
      rw [show b0.runningIndex = 0 from rfl, hsize, hL] at hc
      rw [lastWrite_zero_formula C hC (C + m) j hjC] at hc
      rw [if_pos (by omega : j < C + m)] at hc
      have hmod : (C + m - 1 - j) % C = C + m - 1 - j :=
        Nat.mod_eq_of_lt (by omega)
      rw [hmod, show C + m - 1 - (C + m - 1 - j) = j from by omega] at hc
      exact hc

/-- Witness for C3 at capacity 2 with three pushed transitions: the single
oldest row was overwritten by the newest transition and slot 1 still holds the
second transition. -/
theorem C3_replay_buffer_ring_witness :
    (((ReplayBuffer.init 2 1 1 false false).pushList [[1],[2],[3]]).numElements = 2) ∧
    (((ReplayBuffer.init 2 1 1 false false).pushList [[1],[2],[3]]).buffer[0]? = some [3]) ∧
    (((ReplayBuffer.init 2 1 1 false false).pushList [[1],[2],[3]]).buffer[1]? = some [2]) := by
  have h := (C3_replay_buffer_ring 2 1 1 false false (by decide) [[1],[2],[3]]).2 1
    (by decide) (by decide) (by decide)
  refine ⟨h.1, ?_, ?_⟩
  · rw [h.2.1 0 (by decide)]
    rfl
  · rw [h.2.2 1 (by decide) (by decide)]
    rfl

/-! ### Replay buffer accessors (utils.py lines 121-140)

Pure column-slicing accessors over a batch of sampled rows; python negative
indices `-1`/`-2` are written out as `length - 1`/`length - 2`. -/

/-- `get_observations(samples)`: columns `[0, observation_space_size)`. -/
def ReplayBuffer.get_observations (b : ReplayBuffer) (samples : List (List ℚ)) :
    List (List ℚ) :=
  samples.map (fun row => row.take b.observationSpaceSize)

/-- `get_next_obs(samples)`: columns `[L+1, 2L+1)` for `L = observation_space_size`. -/
def ReplayBuffer.get_next_obs (b : ReplayBuffer) (samples : List (List ℚ)) :
    List (List ℚ) :=
  samples.map (fun row =>
    (row.drop (b.observationSpaceSize + 1)).take b.observationSpaceSize)

/-- `get_rewards(samples)`: columns `[2L+1, width-2)`. -/
def ReplayBuffer.get_rewards (b : ReplayBuffer) (samples : List (List ℚ)) :
    List (List ℚ) :=
  samples.map (fun row =>
    (row.drop (2 * b.observationSpaceSize + 1)).take
      (row.length - 2 - (2 * b.observationSpaceSize + 1)))

/-- `get_termination_flag(samples)`: column `width-2`, cast to bool (nonzero). -/
def ReplayBuffer.get_termination_flag (b : ReplayBuffer) (samples : List (List ℚ)) :
    List Bool :=
  samples.map (fun row => decide (row.getD (row.length - 2) 0 ≠ 0))

/-- `get_importance_sampling_id(samples)`: column `width-1`. -/
def ReplayBuffer.get_importance_sampling_id (b : ReplayBuffer)
    (samples : List (List ℚ)) : List ℚ :=
  samples.map (fun row => row.getD (row.length - 1) 0)

/-- Slicing a concatenated transition row recovers each constituent segment. -/
theorem row_slicing (L O : ℕ) (obs nextObs reward : List ℚ) (a tval idval : ℚ)
    (hobs : obs.length = L) (hnext : nextObs.length = L) (hrew : reward.length = O) :
    (obs ++ [a] ++ nextObs ++ reward ++ [tval] ++ [idval]).length = 2 * L + O + 3 ∧
    (obs ++ [a] ++ nextObs ++ reward ++ [tval] ++ [idval]).take L = obs ∧
    ((obs ++ [a] ++ nextObs ++ reward ++ [tval] ++ [idval]).drop (L + 1)).take L = nextObs ∧
    ((obs ++ [a] ++ nextObs ++ reward ++ [tval] ++ [idval]).drop (2 * L + 1)).take O = reward ∧
    (obs ++ [a] ++ nextObs ++ reward ++ [tval] ++ [idval]).getD (2 * L + O + 1) 0 = tval ∧
    (obs ++ [a] ++ nextObs ++ reward ++ [tval] ++ [idval]).getD (2 * L + O + 2) 0 = idval := by
  have hlen : (obs ++ [a] ++ nextObs ++ reward ++ [tval] ++ [idval]).length = 2 * L + O + 3 := by
    simp only [List.length_append, List.length_singleton, hobs, hnext, hrew]
    omega
  refine ⟨hlen, ?_, ?_, ?_, ?_, ?_⟩
  · have e : obs ++ [a] ++ nextObs ++ reward ++ [tval] ++ [idval]
        = obs ++ ([a] ++ nextObs ++ reward ++ [tval] ++ [idval]) := by
      simp [List.append_assoc]
    rw [e]
    exact List.take_left' hobs
  · have e : obs ++ [a] ++ nextObs ++ reward ++ [tval] ++ [idval]
        = (obs ++ [a]) ++ (nextObs ++ reward ++ [tval] ++ [idval]) := by
      simp [List.append_assoc]
    have hpre : (obs ++ [a]).length = L + 1 := by
      rw [List.length_append, hobs, List.length_singleton]
    rw [e, List.drop_left' hpre]
    have e2 : nextObs ++ reward ++ [tval] ++ [idval]
        = nextObs ++ (reward ++ [tval] ++ [idval]) := by
      simp [List.append_assoc]
    rw [e2]
    exact List.take_left' hnext
  · have e : obs ++ [a] ++ nextObs ++ reward ++ [tval] ++ [idval]
        = (obs ++ [a] ++ nextObs) ++ (reward ++ [tval] ++ [idval]) := by
      simp [List.append_assoc]
    have hpre : (obs ++ [a] ++ nextObs).length = 2 * L + 1 := by
      rw [List.length_append, List.length_append, hobs, hnext, List.length_singleton]
      omega
    rw [e, List.drop_left' hpre]
    have e2 : reward ++ [tval] ++ [idval] = reward ++ ([tval] ++ [idval]) := by
      simp [List.append_assoc]
    rw [e2]
    exact List.take_left' hrew
  · rw [List.getD_eq_getElem?_getD]
    have e : obs ++ [a] ++ nextObs ++ reward ++ [tval] ++ [idval]
        = (obs ++ [a] ++ nextObs ++ reward) ++ ([tval] ++ [idval]) := by
      simp [List.append_assoc]
    have hpre : (obs ++ [a] ++ nextObs ++ reward).length = 2 * L + O + 1 := by
      rw [List.length_append, List.length_append, List.length_append,
        hobs, hnext, hrew, List.length_singleton]
      omega
    rw [e, List.getElem?_append_right (by omega), hpre, Nat.sub_self]
    rfl
  · rw [List.getD_eq_getElem?_getD]
    have e : obs ++ [a] ++ nextObs ++ reward ++ [tval] ++ [idval]
        = (obs ++ [a] ++ nextObs ++ reward ++ [tval]) ++ [idval] := rfl
    have hpre : (obs ++ [a] ++ nextObs ++ reward ++ [tval]).length = 2 * L + O + 2 := by
      rw [List.length_append, List.length_append, List.length_append, List.length_append,
        hobs, hnext, hrew, List.length_singleton, List.length_singleton]
      omega
    rw [e, List.getElem?_append_right (by omega), hpre, Nat.sub_self]
    rfl

/-- C4: pushing one transition with known observation, action, next
observation, reward vector and boolean terminal flag, then reading the stored
row back through `get_observations`, `get_next_obs`, `get_rewards` and
`get_termination_flag`, reconstructs exactly the original values. -/
theorem C4_push_accessor_round_trip (b : ReplayBuffer) (obs nextObs reward : List ℚ)
    (a : ℚ) (terminated : Bool) (idArg : Option (List ℚ))
    (hIS : b.importanceSampling = false)
    (hobs : obs.length = b.observationSpaceSize)
    (hnext : nextObs.length = b.observationSpaceSize)
    (hrew : reward.length = b.numObjectives)
    (hri : b.runningIndex < b.size)
    (hblen : b.buffer.length = b.size) :
    ∃ (b' : ReplayBuffer) (row : List ℚ),
      b.push obs [a] nextObs reward [if terminated then 1 else 0] idArg = .ok b' ∧
      b'.buffer[b.runningIndex]? = some row ∧
      b.get_observations [row] = [obs] ∧
      b.get_next_obs [row] = [nextObs] ∧
      b.get_rewards [row] = [reward] ∧
      b.get_termination_flag [row] = [terminated] := by
  set tval : ℚ := if terminated then 1 else 0 with htval
  set row : List ℚ := obs ++ [a] ++ nextObs ++ reward ++ [tval] ++ [0] with hrow
  obtain ⟨hlen, htake, hdrop, hrews, hterm, _⟩ :=
    row_slicing b.observationSpaceSize b.numObjectives obs nextObs reward a tval 0
      hobs hnext hrew
  refine ⟨b.pushRow row, row, ?_, ?_, ?_, ?_, ?_, ?_⟩
  · exact ReplayBuffer.push_eq_pushRow b obs [a] nextObs reward [tval] idArg hIS
  · show (b.buffer.set b.runningIndex row)[b.runningIndex]? = some row
    rw [List.getElem?_set, if_pos rfl, if_pos (by rw [hblen]; exact hri)]
  · show [row.take b.observationSpaceSize] = [obs]
    rw [htake]
  · show [(row.drop (b.observationSpaceSize + 1)).take b.observationSpaceSize] = [nextObs]
    rw [hdrop]
  · show [(row.drop (2 * b.observationSpaceSize + 1)).take
      (row.length - 2 - (2 * b.observationSpaceSize + 1))] = [reward]
    rw [hlen, show 2 * b.observationSpaceSize + b.numObjectives + 3 - 2 -
      (2 * b.observationSpaceSize + 1) = b.numObjectives from by omega, hrews]
  · show [decide (row.getD (row.length - 2) 0 ≠ 0)] = [terminated]
    rw [hlen, show 2 * b.observationSpaceSize + b.numObjectives + 3 - 2 =
      2 * b.observationSpaceSize + b.numObjectives + 1 from by omega, hterm]
    cases terminated with
    | true => simp [htval]
    | false => simp [htval]

/-- Witness for C4: a concrete one-slot buffer with `L = 2`, `O = 2`. -/
theorem C4_push_accessor_round_trip_witness :
    ∃ (b' : ReplayBuffer) (row : List ℚ),
      (ReplayBuffer.init 1 2 2 false false).push [5, 6] [2] [7, 8] [(1:ℚ)/3, 1]
        [1] (some [9]) = .ok b' ∧
      b'.buffer[(ReplayBuffer.init 1 2 2 false false).runningIndex]? = some row ∧
      (ReplayBuffer.init 1 2 2 false false).get_observations [row] = [[5, 6]] ∧
      (ReplayBuffer.init 1 2 2 false false).get_next_obs [row] = [[7, 8]] ∧
      (ReplayBuffer.init 1 2 2 false false).get_rewards [row] = [[(1:ℚ)/3, 1]] ∧
      (ReplayBuffer.init 1 2 2 false false).get_termination_flag [row] = [true] :=
  C4_push_accessor_round_trip (ReplayBuffer.init 1 2 2 false false)
    [5, 6] [7, 8] [(1:ℚ)/3, 1] 2 true (some [9]) rfl rfl rfl rfl (by decide) (by decide)

/-- The last column of a row that ends in `[x]` reads back `x`. -/
theorem getD_last_append (l : List ℚ) (x : ℚ) :
    (l ++ [x]).getD ((l ++ [x]).length - 1) 0 = x := by
  rw [List.getD_eq_getElem?_getD, List.length_append, List.length_singleton]
  rw [List.getElem?_append_right (by omega)]
  rw [show l.length + 1 - 1 - l.length = 0 from by omega]
  rfl

/-- C10: for a single-sample push into a buffer constructed with importance
sampling disabled, the stored importance-sampling-id column is `0`, whatever
id the caller supplies: the caller-provided id is silently discarded. -/
theorem C10_id_discarded_when_IS_off (b : ReplayBuffer)
    (obs action nextObs reward terminated : List ℚ) (idArg : Option (List ℚ))
    (hIS : b.importanceSampling = false)
    (hri : b.runningIndex < b.size)
    (hblen : b.buffer.length = b.size) :
    ∃ (b' : ReplayBuffer) (row : List ℚ),
      b.push obs action nextObs reward terminated idArg = .ok b' ∧
      b'.buffer[b.runningIndex]? = some row ∧
      b.get_importance_sampling_id [row] = [0] := by
  refine ⟨b.pushRow (obs ++ action ++ nextObs ++ reward ++ terminated ++ [0]),
    obs ++ action ++ nextObs ++ reward ++ terminated ++ [0], ?_, ?_, ?_⟩
  · exact ReplayBuffer.push_eq_pushRow b obs action nextObs reward terminated idArg hIS
  · show (b.buffer.set b.runningIndex _)[b.runningIndex]? = some _
    rw [List.getElem?_set, if_pos rfl, if_pos (by rw [hblen]; exact hri)]
  · simp only [ReplayBuffer.get_importance_sampling_id, List.map_cons, List.map_nil]
    rw [show obs ++ action ++ nextObs ++ reward ++ terminated ++ [(0:ℚ)]
      = (obs ++ action ++ nextObs ++ reward ++ terminated) ++ [0] from rfl]
    rw [getD_last_append]

/-- Witness for C10: a caller-supplied id `7` is stored as `0` when importance
sampling is off. -/
theorem C10_id_discarded_when_IS_off_witness :
    ∃ (b' : ReplayBuffer) (row : List ℚ),
      (ReplayBuffer.init 1 1 1 false false).push [4] [2] [5] [6] [1]
        (some [7]) = .ok b' ∧
      b'.buffer[(ReplayBuffer.init 1 1 1 false false).runningIndex]? = some row ∧
      (ReplayBuffer.init 1 1 1 false false).get_importance_sampling_id [row] = [0] :=
  C10_id_discarded_when_IS_off (ReplayBuffer.init 1 1 1 false false)
    [4] [2] [5] [6] [1] (some [7]) rfl (by decide) (by decide)

/-! ### Replay buffer sampling (utils.py lines 95-119)

`sample` builds a probability vector, normalizes it, and delegates the random
draw to `rng.choice(num_elements, p=probs, size=max(1, round(sample_size)),
replace=True)`.  The pure parts are embedded below: the probability vector
handed to the generator and the number of rows requested. -/

/-- Python 3 `round` (round-half-to-even) on a rational. -/
def pyRound (q : ℚ) : ℤ :=
  if q - ⌊q⌋ < 1/2 then ⌊q⌋
  else if 1/2 < q - ⌊q⌋ then ⌊q⌋ + 1
  else if ⌊q⌋ % 2 = 0 then ⌊q⌋ else ⌊q⌋ + 1

/-- The `size` argument of the `rng.choice` call: `max(1, round(sample_size))`. -/
def ReplayBuffer.sampleCount (sampleSize : ℚ) : ℤ :=
  max 1 (pyRound sampleSize)

/-- `torch.min` over a nonempty list (the empty case never arises in `sample`
because the training loop only samples a nonempty buffer). -/
def minQ : List ℚ → ℚ
  | [] => 0
  | x :: xs => xs.foldl min x

/-- `compute_importance_sampling_probs` (utils.py lines 112-119):
`(imp_sampling_ids - min_id + 1)` over the occupied rows, id = column `-1`. -/
def ReplayBuffer.computeImportanceSamplingProbs (b : ReplayBuffer) : List ℚ :=
  ((b.buffer.take b.numElements).map (fun row => row.getD (row.length - 1) 0)).map
    (fun id => id - minQ ((b.buffer.take b.numElements).map
      (fun row => row.getD (row.length - 1) 0)) + 1)

/-- The unnormalized selection weights built by `sample` (utils.py lines
96-103): uniform `1/num_elements` unless importance sampling is enabled, then
doubled on rows whose termination flag (column `-2`) is set when
`prioritise_crashes` is enabled. -/
def ReplayBuffer.sampleUnnormalized (b : ReplayBuffer) : List ℚ :=
  if b.prioritiseCrashes then
    List.zipWith (fun p row => if row.getD (row.length - 2) 0 ≠ 0 then p * 2 else p)
      (if b.importanceSampling then b.computeImportanceSamplingProbs
        else List.replicate b.numElements ((1 : ℚ) / b.numElements))
      (b.buffer.take b.numElements)
  else
    (if b.importanceSampling then b.computeImportanceSamplingProbs
      else List.replicate b.numElements ((1 : ℚ) / b.numElements))

/-- The normalized probability vector passed to `rng.choice` (utils.py lines
105-107); the normalizer `cumsum(probs)[-1]` is the sum of the vector. -/
def ReplayBuffer.sampleProbs (b : ReplayBuffer) : List ℚ :=
  b.sampleUnnormalized.map (fun p => p / b.sampleUnnormalized.sum)

/-- The per-row selection weight as the specification describes it: base
weight 1 with importance sampling disabled, `(id - min_id + 1)` with it
enabled, doubled for rows whose terminal flag is set when `prioritise_crashes`
is (additionally) enabled. -/
def claimWeight (b : ReplayBuffer) (minId : ℚ) (row : List ℚ) : ℚ :=
  (if b.importanceSampling then row.getD (row.length - 1) 0 - minId + 1 else 1) *
  (if b.prioritiseCrashes ∧ row.getD (row.length - 2) 0 ≠ 0 then 2 else 1)

/-- The specification-side weight vector over the occupied rows. -/
def claimWeights (b : ReplayBuffer) : List ℚ :=
  (b.buffer.take b.numElements).map
    (claimWeight b (minQ ((b.buffer.take b.numElements).map
      (fun row => row.getD (row.length - 1) 0))))

theorem zipWith_replicate_left {α β γ : Type} (f : α → β → γ) (c : α) (l : List β) :
    List.zipWith f (List.replicate l.length c) l = l.map (fun x => f c x) := by
  induction l with
  | nil => rfl
  | cons x xs ih => simp [List.replicate_succ, ih]

theorem zipWith_replicate_left' {α β γ : Type} (f : α → β → γ) (c : α) (n : ℕ)
    (l : List β) (h : l.length = n) :
    List.zipWith f (List.replicate n c) l = l.map (fun x => f c x) := by
  subst h
  exact zipWith_replicate_left f c l

/-- Normalizing after scaling every entry by a nonzero constant gives the same
probability vector as normalizing the unscaled entries. -/
theorem map_div_sum_mul (l : List ℚ) (c : ℚ) (hc : c ≠ 0) :
    (l.map (fun x => x * c)).map (fun p => p / (l.map (fun x => x * c)).sum)
      = l.map (fun p => p / l.sum) := by
  have hsum : (l.map (fun x => x * c)).sum = l.sum * c := by
    have h := List.sum_map_mul_right l (fun x => x) c
    simpa using h
  rw [hsum, List.map_map]
  refine List.map_congr_left ?_
  intro a _
  exact mul_div_mul_right a l.sum hc

/-- The weight vector built by `sample` is the specification's weight vector,
scaled by `1` (importance sampling on) or `1/num_elements` (off). -/
theorem ReplayBuffer.sampleUnnormalized_eq (b : ReplayBuffer)
    (h2 : b.numElements ≤ b.buffer.length) :
    b.sampleUnnormalized = (claimWeights b).map
      (fun w => w * (if b.importanceSampling then 1 else (1 : ℚ) / b.numElements)) := by
  have hlen : (b.buffer.take b.numElements).length = b.numElements := by
    rw [List.length_take]
    omega
  unfold ReplayBuffer.sampleUnnormalized claimWeights claimWeight
    ReplayBuffer.computeImportanceSamplingProbs
  rw [List.map_map]
  cases hIS : b.importanceSampling with
  | true =>
    rw [if_pos rfl, if_pos rfl]
    cases hPC : b.prioritiseCrashes with
    | true =>
      rw [if_pos rfl, List.map_map, List.zipWith_map_left, List.zipWith_same]
      refine List.map_congr_left ?_
      intro r _
      simp only [Function.comp_apply]
      rw [if_pos trivial]
      by_cases h : r.getD (r.length - 2) 0 ≠ 0
      · rw [if_pos h, if_pos ⟨trivial, h⟩]
        ring
      · rw [if_neg h, if_neg (by intro hcon; exact h hcon.2)]
        ring
    | false =>
      rw [if_neg Bool.false_ne_true, List.map_map]
      refine List.map_congr_left ?_
      intro r _
      simp only [Function.comp_apply]
      rw [if_pos trivial, if_neg (by intro hcon; exact Bool.false_ne_true hcon.1)]
      ring
  | false =>
    rw [if_neg Bool.false_ne_true, if_neg Bool.false_ne_true]
    cases hPC : b.prioritiseCrashes with
    | true =>
      rw [if_pos rfl, zipWith_replicate_left' _ _ _ _ hlen, List.map_map]
      refine List.map_congr_left ?_
      intro r _
      simp only [Function.comp_apply]
      rw [if_neg Bool.false_ne_true]
      by_cases h : r.getD (r.length - 2) 0 ≠ 0
      · rw [if_pos h, if_pos ⟨trivial, h⟩]
        ring
      · rw [if_neg h, if_neg (by intro hcon; exact h hcon.2)]
        ring
    | false =>
      rw [if_neg Bool.false_ne_true, List.map_map]
      have hconst : ∀ r ∈ b.buffer.take b.numElements,
          ((fun w => w * ((1 : ℚ) / b.numElements)) ∘ fun row =>
            (if false = true then row.getD (row.length - 1) 0 -
              minQ ((b.buffer.take b.numElements).map
                (fun row => row.getD (row.length - 1) 0)) + 1 else 1) *
            (if false = true ∧ row.getD (row.length - 2) 0 ≠ 0 then 2 else 1)) r
          = (1 : ℚ) / b.numElements := by
        intro r _
        simp only [Function.comp_apply]
        rw [if_neg Bool.false_ne_true,
          if_neg (by intro hcon; exact Bool.false_ne_true hcon.1)]
        ring
      rw [List.map_congr_left hconst, List.map_const', hlen]

/-- C5: `sample` requests exactly `max(1, round(sample_size))` rows (drawn
with replacement by the generator), and the probability vector it passes to
the generator assigns each occupied row its specification weight divided by
the total weight: weight 1 with importance sampling disabled,
`(id - min_id_in_buffer + 1)` with it enabled, and that weight doubled for
rows whose terminal flag is set when `prioritise_crashes` is additionally
enabled. -/
theorem C5_sample_distribution (b : ReplayBuffer) (sampleSize : ℚ)
    (h1 : 1 ≤ b.numElements) (h2 : b.numElements ≤ b.buffer.length) :
    ReplayBuffer.sampleCount sampleSize = max 1 (pyRound sampleSize) ∧
    b.sampleProbs = (claimWeights b).map (fun w => w / (claimWeights b).sum) := by
  refine ⟨rfl, ?_⟩
  unfold ReplayBuffer.sampleProbs
  rw [ReplayBuffer.sampleUnnormalized_eq b h2]
  apply map_div_sum_mul
  cases hIS : b.importanceSampling with
  | true => rw [if_pos rfl]; exact one_ne_zero
  | false =>
    rw [if_neg Bool.false_ne_true]
    have hne : (b.numElements : ℚ) ≠ 0 := by
      have h0 : 0 < b.numElements := h1
      positivity
    exact one_div_ne_zero hne

/-- A concrete two-row buffer with importance sampling and crash
prioritisation enabled, used to witness C5. -/
def c5WitnessBuffer : ReplayBuffer where
  size := 2
  observationSpaceSize := 0
  numObjectives := 1
  importanceSampling := true
  prioritiseCrashes := true
  buffer := [[3, 0, 1], [4, 1, 2]]
  runningIndex := 0
  numElements := 2

/-- Witness for C5 at a concrete buffer state. -/
theorem C5_sample_distribution_witness :
    ReplayBuffer.sampleCount (7/2) = max 1 (pyRound (7/2)) ∧
    c5WitnessBuffer.sampleProbs =
      (claimWeights c5WitnessBuffer).map
        (fun w => w / (claimWeights c5WitnessBuffer).sum) :=
  C5_sample_distribution c5WitnessBuffer (7/2) (by decide) (by decide)

/-! ## MOHighwayEnv rewards (src/envs/mo_highway_env.py lines 18-91) -/

/-- `highway_env.utils.lmap`: linear map of `v` from range `[a, b]` to range
`[c, d]`, without clipping. -/
def lmap (v a b c d : ℚ) : ℚ := c + (v - a) * (d - c) / (b - a)

/-- `np.clip(v, lo, hi)`. -/
def clip (v lo hi : ℚ) : ℚ := max lo (min v hi)

/-- The reward-relevant entries of `MOHighwayEnv.default_config`
(mo_highway_env.py lines 19-49). -/
structure MOHighwayConfig where
  collision_reward : ℚ
  right_lane_reward : ℚ
  high_speed_reward : ℚ
  lane_change_reward : ℚ
  energy_consumption_reward : ℚ
  reward_speed_low : ℚ
  reward_speed_high : ℚ
  normalize_reward : Bool

/-- The default configuration values: collision -1, right-lane 0.2,
high-speed 1, lane-change 0, energy-consumption 1, speed range [20, 30],
normalization on. -/
def defaultMOHighwayConfig : MOHighwayConfig where
  collision_reward := -1
  right_lane_reward := 1/5
  high_speed_reward := 1
  lane_change_reward := 0
  energy_consumption_reward := 1
  reward_speed_low := 20
  reward_speed_high := 30
  normalize_reward := true

/-- The environment state read by `_rewards` (mo_highway_env.py lines 75-91):
crash flag, (target) lane index, number of side lanes of the current lane,
forward speed `speed * cos(heading)`, and the energy model output
`energy_consumption_function.compute_efficiency(vehicle, normalise=...)`. -/
structure MOHighwayState where
  crashed : Bool
  laneIndex : ℕ
  numSideLanes : ℕ
  forwardSpeed : ℚ
  energyEfficiency : ℚ

/-- The four named terms returned by `_rewards` (lines 86-91). -/
structure MOHighwayRewardTerms where
  collision_reward : ℚ
  right_lane_reward : ℚ
  high_speed_reward : ℚ
  energy_consumption_reward : ℚ

/-- `MOHighwayEnv._rewards(action)` (lines 75-91). -/
def moHighwayRewards (cfg : MOHighwayConfig) (s : MOHighwayState) :
    MOHighwayRewardTerms where
  collision_reward := if s.crashed then 1 else 0
  right_lane_reward := (s.laneIndex : ℚ) / ((max (s.numSideLanes - 1) 1 : ℕ) : ℚ)
  high_speed_reward :=
    clip (lmap s.forwardSpeed cfg.reward_speed_low cfg.reward_speed_high 0 1) 0 1
  energy_consumption_reward := s.energyEfficiency

/-- `MOHighwayEnv._reward(action)` (lines 51-73): each term is scaled by its
configuration coefficient; `speed_reward` and `energy_reward` sum their terms;
with `normalize_reward` each is linearly remapped from
`[collision_reward, positive_coefficient_sum]` to `[0, 1]`; finally, if the
scaled collision term is nonzero both components are overridden to 0. -/
def moHighwayReward (cfg : MOHighwayConfig) (s : MOHighwayState) : ℚ × ℚ :=
  let r := moHighwayRewards cfg s
  let scaledCollision := cfg.collision_reward * r.collision_reward
  let scaledRightLane := cfg.right_lane_reward * r.right_lane_reward
  let scaledHighSpeed := cfg.high_speed_reward * r.high_speed_reward
  let scaledEnergy := cfg.energy_consumption_reward * r.energy_consumption_reward
  let speedReward0 := scaledHighSpeed + scaledRightLane + scaledCollision
  let energyReward0 := scaledEnergy + scaledRightLane + scaledCollision
  let speedReward :=
    if cfg.normalize_reward then
      lmap speedReward0 cfg.collision_reward
        (cfg.high_speed_reward + cfg.right_lane_reward) 0 1
    else speedReward0
  let energyReward :=
    if cfg.normalize_reward then
      lmap energyReward0 cfg.collision_reward
        (cfg.energy_consumption_reward + cfg.right_lane_reward) 0 1
    else energyReward0
  if scaledCollision ≠ 0 then (0, 0) else (speedReward, energyReward)

/-- Bounds for a normalized reward component: for a base term in `[0, 1]` and
a right-lane term in `[0, 1]`, the remap of `1*x + (1/5)*rl + (-1)*0` from
`[-1, 1.2]` to `[0, 1]` stays within `[0, 1]`. -/
theorem normalizedComboBounds (x rl : ℚ) (hx0 : 0 ≤ x) (hx1 : x ≤ 1)
    (hr0 : 0 ≤ rl) (hr1 : rl ≤ 1) :
    0 ≤ lmap (1 * x + 1/5 * rl + -1 * 0) (-1) (1 + 1/5) 0 1 ∧
    lmap (1 * x + 1/5 * rl + -1 * 0) (-1) (1 + 1/5) 0 1 ≤ 1 := by
  unfold lmap
  have h : (0:ℚ) + (1 * x + 1/5 * rl + -1 * 0 - -1) * (1 - 0) / (1 + 1/5 - -1)
      = (x + rl/5 + 1) * (5/11) := by ring
  rw [h]
  constructor
  · linarith
  · linarith

/-- C1: under the default configuration (which has `normalize_reward = true`),
if the ego vehicle has not crashed then both components of the reward vector
lie in `[0, 1]` (assuming the energy-consumption term is normalized to
`[0, 1]` and the lane index is a valid side-lane index); if it has crashed,
both components are exactly 0. -/
theorem C1_mo_highway_reward_bounds (s : MOHighwayState)
    (hE0 : 0 ≤ s.energyEfficiency) (hE1 : s.energyEfficiency ≤ 1)
    (hlane : s.laneIndex < s.numSideLanes) :
    (s.crashed = false →
      0 ≤ (moHighwayReward defaultMOHighwayConfig s).1 ∧
      (moHighwayReward defaultMOHighwayConfig s).1 ≤ 1 ∧
      0 ≤ (moHighwayReward defaultMOHighwayConfig s).2 ∧
      (moHighwayReward defaultMOHighwayConfig s).2 ≤ 1) ∧
    (s.crashed = true → moHighwayReward defaultMOHighwayConfig s = (0, 0)) := by
  have hrl0 : 0 ≤ (s.laneIndex : ℚ) / ((max (s.numSideLanes - 1) 1 : ℕ) : ℚ) := by
    apply div_nonneg
    · exact Nat.cast_nonneg _
    · exact Nat.cast_nonneg _
  have hrl1 : (s.laneIndex : ℚ) / ((max (s.numSideLanes - 1) 1 : ℕ) : ℚ) ≤ 1 := by
    rw [div_le_one (by positivity)]
    have h : s.laneIndex ≤ max (s.numSideLanes - 1) 1 := by omega
    exact_mod_cast h
  have hhs0 : 0 ≤ clip (lmap s.forwardSpeed 20 30 0 1) 0 1 := le_max_left _ _
  have hhs1 : clip (lmap s.forwardSpeed 20 30 0 1) 0 1 ≤ 1 :=
    max_le (by norm_num) (min_le_right _ _)
  constructor
  · intro hcrash
    unfold moHighwayReward moHighwayRewards
    simp only [hcrash, if_false, defaultMOHighwayConfig, Bool.false_eq_true]
    rw [if_neg (by norm_num)]
    rw [if_pos trivial, if_pos trivial]
    exact ⟨(normalizedComboBounds _ _ hhs0 hhs1 hrl0 hrl1).1,
      (normalizedComboBounds _ _ hhs0 hhs1 hrl0 hrl1).2,
      (normalizedComboBounds _ _ hE0 hE1 hrl0 hrl1).1,
      (normalizedComboBounds _ _ hE0 hE1 hrl0 hrl1).2⟩
  · intro hcrash
    unfold moHighwayReward moHighwayRewards
    simp only [hcrash, if_true, defaultMOHighwayConfig]
    rw [if_pos (by norm_num)]

/-- Witness for C1: a mid-lane, mid-speed, half-efficiency state, crashed and
not crashed. -/
theorem C1_mo_highway_reward_bounds_witness :
    (false = false →
      0 ≤ (moHighwayReward defaultMOHighwayConfig
        ⟨false, 2, 4, 25, 1/2⟩).1 ∧
      (moHighwayReward defaultMOHighwayConfig ⟨false, 2, 4, 25, 1/2⟩).1 ≤ 1 ∧
      0 ≤ (moHighwayReward defaultMOHighwayConfig ⟨false, 2, 4, 25, 1/2⟩).2 ∧
      (moHighwayReward defaultMOHighwayConfig ⟨false, 2, 4, 25, 1/2⟩).2 ≤ 1) ∧
    (false = true →
      moHighwayReward defaultMOHighwayConfig ⟨false, 2, 4, 25, 1/2⟩ = (0, 0)) :=
  C1_mo_highway_reward_bounds ⟨false, 2, 4, 25, 1/2⟩
    (by norm_num) (by norm_num) (by norm_num)

/-! ## Reward aggregation (MOMA_DQN.compute_reward_summary, MOMA_DQN.py
lines 225-262)

The per-vehicle reward matrices coming from the environment may contain NaN
padding rows (neighbours too far away), so scalar entries are embedded as a
NaN-capable value type with IEEE-style NaN propagation through `*`, `+`
and division by a count. -/

/-- A float that is either NaN or a rational number. -/
inductive Val where
  | nan : Val
  | num : ℚ → Val
deriving DecidableEq

/-- Multiplication with NaN propagation. -/
def Val.mul : Val → Val → Val
  | Val.num a, Val.num b => Val.num (a * b)
  | _, _ => Val.nan

/-- Addition with NaN propagation. -/
def Val.add : Val → Val → Val
  | Val.num a, Val.num b => Val.num (a + b)
  | _, _ => Val.nan

/-- Division by a natural count, with NaN propagation. -/
def Val.divNat : Val → ℕ → Val
  | Val.num a, n => Val.num (a / n)
  | Val.nan, _ => Val.nan

/-- Sum of a list of values (NaN if any entry is NaN). -/
def sumVal (l : List Val) : Val := l.foldr Val.add (Val.num 0)

/-- `torch.mean(m, dim=0)`: the arithmetic mean of each column over the rows. -/
def colMeanVal (rows : List (List Val)) : List Val :=
  rows.transpose.map (fun col => (sumVal col).divNat rows.length)

/-- Elementwise product of a reward matrix with a (rational) weight matrix. -/
def weightedRewards (r : List (List Val)) (w : List (List ℚ)) : List (List Val) :=
  List.zipWith (fun rrow wrow =>
    List.zipWith (fun v q => v.mul (Val.num q)) rrow wrow) r w

/-- `weights[torch.all(weights == 0, dim=1)] = 1/self.num_objectives`
(MOMA_DQN.py line 239): every all-zero weight row is replaced elementwise by
the uniform weight `1/num_objectives`. -/
def substituteZeroWeightRows (numObjectives : ℕ) (objWeights : List (List ℚ)) :
    List (List ℚ) :=
  objWeights.map (fun row =>
    if row.all (fun q => q == 0) then row.map (fun _ => (1 : ℚ) / numObjectives)
    else row)

/-- MOMA_DQN.py lines 243-245: when the reward matrix has more rows than the
weight matrix, the excess rows are asserted to be all NaN and truncated away. -/
def truncateRewards (r : List (List Val)) (weights : List (List ℚ)) :
    Except String (List (List Val)) :=
  if weights.length < r.length then
    if (r.drop weights.length).all (fun row => row.all (fun v => v == Val.nan)) then
      .ok (r.take weights.length)
    else .error "assertion failed: excess reward rows must be NaN"
  else .ok r

/-- The `match self.reward_structure` dispatch (MOMA_DQN.py lines 250-257):
`"mean_reward"` takes the column mean over ego and social rows, `"ego_reward"`
takes row 0, anything else raises `ValueError`. -/
def aggregateRewardStructure (rewardStructure : String)
    (weighted : List (List Val)) : Except String (List Val) :=
  match rewardStructure with
  | "mean_reward" => .ok (colMeanVal weighted)
  | "ego_reward" =>
    match weighted with
    | [] => .error "index out of range"
    | w0 :: _ => .ok w0
  | _ => .error "reward_structure argument not in list of available reward structures"

/-- The loop body of `compute_reward_summary` for one controlled vehicle
(MOMA_DQN.py lines 230-260): on a crash, the vehicle's own row-0 raw reward is
returned unchanged; otherwise the zero weight rows are substituted, excess
reward rows truncated, the rewards weighted elementwise, and the configured
reward structure aggregates the rows. -/
def computeRewardSummaryVehicle (rewardStructure : String) (numObjectives : ℕ)
    (crashed : Bool) (r : List (List Val)) (objWeights : List (List ℚ)) :
    Except String (List Val) :=
  if crashed then
    match r with
    | [] => .error "index out of range"
    | r0 :: _ => .ok r0
  else
    match truncateRewards r (substituteZeroWeightRows numObjectives objWeights) with
    | .error e => .error e
    | .ok r2 =>
      if r2.length ≠ (substituteZeroWeightRows numObjectives objWeights).length then
        .error "shape mismatch"
      else aggregateRewardStructure rewardStructure
        (weightedRewards r2 (substituteZeroWeightRows numObjectives objWeights))

/-- `compute_reward_summary(rewards, obj_weights)`: the loop over controlled
vehicles, each contributing its crash flag, reward matrix and neighbour
weight matrix. -/
def computeRewardSummary (rewardStructure : String) (numObjectives : ℕ)
    (vehicles : List (Bool × List (List Val) × List (List ℚ))) :
    Except String (List (List Val)) :=
  vehicles.mapM (fun v => computeRewardSummaryVehicle rewardStructure numObjectives
    v.1 v.2.1 v.2.2)

/-- A successful `mapM` over `Except` maps each element to the corresponding
output element. -/
theorem mapM_ok_get {α β : Type} (f : α → Except String β) :
    ∀ (l : List α) (out : List β), l.mapM f = .ok out →
      out.length = l.length ∧
      ∀ i (h : i < l.length) (h' : i < out.length),
        f (l.get ⟨i, h⟩) = .ok (out.get ⟨i, h'⟩) := by
  intro l
  induction l with
  | nil =>
    intro out h
    rw [List.mapM_nil] at h
    simp only [pure, Except.pure] at h
    injection h with h2
    subst h2
    exact ⟨rfl, fun i h => absurd h (Nat.not_lt_zero i)⟩
  | cons x xs ih =>
    intro out h
    rw [List.mapM_cons] at h
    cases hfx : f x with
    | error e =>
      rw [hfx] at h
      simp [Bind.bind, Except.bind] at h
    | ok y =>
      rw [hfx] at h
      cases hrest : xs.mapM f with
      | error e =>
        rw [hrest] at h
        simp [Bind.bind, Except.bind] at h
      | ok ys =>
        rw [hrest] at h
        simp [Bind.bind, Except.bind, pure, Except.pure] at h
        subst h
        obtain ⟨hlen, hget⟩ := ih ys hrest
        refine ⟨by simp [hlen], ?_⟩
        intro i hi hi'
        cases i with
        | zero => exact hfx
        | succ n =>
          exact hget n (Nat.lt_of_succ_lt_succ hi) (Nat.lt_of_succ_lt_succ hi')

/-- C2: whenever controlled vehicle `i` is flagged as crashed,
`compute_reward_summary` returns, as vehicle `i`'s aggregated reward, exactly
row 0 of that vehicle's raw reward matrix, for every weight matrix and every
configured reward structure. -/
theorem C2_crash_short_circuit (rewardStructure : String) (numObjectives : ℕ)
    (vehicles : List (Bool × List (List Val) × List (List ℚ)))
    (out : List (List Val)) (i : ℕ) (hi : i < vehicles.length)
    (hok : computeRewardSummary rewardStructure numObjectives vehicles = .ok out)
    (hcrash : (vehicles.get ⟨i, hi⟩).1 = true) :
    ∃ (hi' : i < out.length),
      ((vehicles.get ⟨i, hi⟩).2.1).head? = some (out.get ⟨i, hi'⟩) := by
  obtain ⟨hlen, hget⟩ := mapM_ok_get _ vehicles out hok
  have hi' : i < out.length := by rw [hlen]; exact hi
  refine ⟨hi', ?_⟩
  have h := hget i hi hi'
  unfold computeRewardSummaryVehicle at h
  rw [hcrash] at h
  rw [if_pos rfl] at h
  cases hr : (vehicles.get ⟨i, hi⟩).2.1 with
  | nil =>
    rw [hr] at h
    exact absurd h (by simp)
  | cons r0 rest =>
    rw [hr] at h
    have : r0 = out.get ⟨i, hi'⟩ := by
      have := h
      simp at this
      exact this
    rw [this]
    rfl

/-- A concrete two-vehicle input for the C2 witness: both vehicles crashed;
vehicle 1 carries an extreme weight row. -/
def c2Vehicles : List (Bool × List (List Val) × List (List ℚ)) :=
  [(true, [[Val.num 1, Val.num 2]], [[1/2, 1/2]]),
   (true, [[Val.num 5, Val.num 7]], [[9, 9]])]

/-- The aggregated output on `c2Vehicles` under the ego_reward structure. -/
def c2Out : List (List Val) :=
  [[Val.num 1, Val.num 2], [Val.num 5, Val.num 7]]

/-- Witness for C2: the crashed vehicle's aggregate equals its raw row 0,
untouched by its weight row `[9, 9]` and the ego_reward structure. -/
theorem C2_crash_short_circuit_witness :
    ∃ (hi' : 1 < c2Out.length),
      ((c2Vehicles.get ⟨1, by decide⟩).2.1).head? = some (c2Out.get ⟨1, hi'⟩) :=
  C2_crash_short_circuit "ego_reward" 2 c2Vehicles c2Out 1 (by decide) rfl rfl

/-- C6: for a non-crashed vehicle whose weight matrix contains an all-zero row
`j` (and no other all-zero row), the `mean_reward` aggregation equals the
result of first replacing every entry of row `j` by `1/num_objectives` and
then performing the elementwise weighting and row-wise arithmetic mean. -/
theorem C6_zero_weight_substitution (n : ℕ) (hn : 0 < n)
    (r : List (List Val)) (W : List (List ℚ)) (j : ℕ) (hj : j < W.length)
    (hzero : ∀ q ∈ W.getD j [], q = 0)
    (hunique : ∀ k, k < W.length → k ≠ j → ∃ q ∈ W.getD k [], q ≠ 0)
    (hshape : r.length = W.length)
    (hrowlen : ∀ row ∈ W, row.length = n) :
    computeRewardSummaryVehicle "mean_reward" n false r W =
      .ok (colMeanVal (weightedRewards r
        (W.set j (List.replicate n ((1 : ℚ) / n))))) := by
  have hw : substituteZeroWeightRows n W = W.set j (List.replicate n ((1 : ℚ) / n)) := by
    apply List.ext_getElem?
    intro k
    unfold substituteZeroWeightRows
    rw [List.getElem?_map, List.getElem?_set]
    by_cases hkj : j = k
    · subst hkj
      rw [if_pos rfl, if_pos hj, List.getElem?_eq_getElem hj]
      simp only [Option.map_some']
      congr 1
      have hall : (W[j].all (fun q => q == 0)) = true := by
        rw [List.all_eq_true]
        intro q hq
        rw [beq_iff_eq]
        exact hzero q (by rwa [List.getD_eq_getElem _ _ hj])
      rw [if_pos hall, List.map_const', hrowlen (W[j]) (List.getElem_mem hj)]
    · rw [if_neg hkj]
      by_cases hk : k < W.length
      · rw [List.getElem?_eq_getElem hk]
        simp only [Option.map_some']
        congr 1
        have hall : (W[k].all (fun q => q == 0)) = false := by
          rw [List.all_eq_false]
          obtain ⟨q, hqmem, hqne⟩ := hunique k hk (fun h => hkj h.symm)
          refine ⟨q, ?_, ?_⟩
          · rwa [List.getD_eq_getElem _ _ hk] at hqmem
          · intro hq
            exact hqne (by rwa [beq_iff_eq] at hq)
        rw [if_neg (by rw [hall]; exact Bool.false_ne_true)]
      · rw [List.getElem?_eq_none (Nat.le_of_not_lt hk)]
        rfl
  unfold computeRewardSummaryVehicle
  rw [if_neg Bool.false_ne_true, hw]
  have htrunc : truncateRewards r (W.set j (List.replicate n ((1 : ℚ) / n))) = .ok r := by
    unfold truncateRewards
    rw [List.length_set]
    rw [if_neg (by omega)]
  rw [htrunc]
  show (if r.length ≠ (W.set j (List.replicate n ((1 : ℚ) / n))).length then _ else _) = _
  rw [List.length_set]
  rw [if_neg (by omega)]
  rfl

/-- Concrete reward matrix for the C6 witness. -/
def c6R : List (List Val) := [[Val.num 4, Val.num 6], [Val.num 8, Val.num 2]]

/-- Concrete weight matrix for the C6 witness: row 1 is the all-zero
(uncontrolled neighbour) row. -/
def c6W : List (List ℚ) := [[2, 3], [0, 0]]

/-- Witness for C6 with two objectives and one all-zero neighbour row. -/
theorem C6_zero_weight_substitution_witness :
    computeRewardSummaryVehicle "mean_reward" 2 false c6R c6W =
      .ok (colMeanVal (weightedRewards c6R
        (c6W.set 1 (List.replicate 2 ((1 : ℚ) / 2))))) :=
  C6_zero_weight_substitution 2 (by decide) c6R c6W 1 (by decide) (by decide)
    (by decide) rfl (by decide)

/-! ## Training reward logger (MOMA_DQN.train, MOMA_DQN.py lines 160-210) -/

/-- One training episode's effect on the reward logger: `accumulated_rewards`
is zero-initialized at episode start (line 167, `np.zeros(num_objectives)`);
the inner step loop (lines 174-195) selects actions, steps the environment,
computes per-step reward summaries and pushes them into the replay buffer, but
never adds anything to `accumulated_rewards`; at episode end the row
`(episode_nr, *accumulated_rewards)` is appended to the reward logger
(line 210).  The per-step reward summaries are an arbitrary input here because
they never flow into the logged row. -/
def trainEpisodeRewardRow (numObjectives : ℕ) (episode : ℕ)
    (stepRewardSummaries : List (List ℚ)) : ℕ × List ℚ :=
  let accumulatedRewards := List.replicate numObjectives (0 : ℚ)
  (episode, accumulatedRewards)

/-- The reward logger contents after a full `train` run of `numEpisodes`
episodes: one row per episode. -/
def trainRewardLog (numObjectives numEpisodes : ℕ)
    (stepRewardSummaries : ℕ → List (List ℚ)) : List (ℕ × List ℚ) :=
  (List.range numEpisodes).map
    (fun episode =>
      trainEpisodeRewardRow numObjectives episode (stepRewardSummaries episode))

/-- C7: every row the training loop appends to the per-episode reward logger
has all of its objective-reward columns equal to zero, whatever rewards the
environment produced during the episodes. -/
theorem C7_reward_logger_always_zero (numObjectives numEpisodes : ℕ)
    (stepRewardSummaries : ℕ → List (List ℚ)) :
    ∀ row ∈ trainRewardLog numObjectives numEpisodes stepRewardSummaries,
      row.2 = List.replicate numObjectives 0 ∧ ∀ x ∈ row.2, x = 0 := by
  intro row hrow
  unfold trainRewardLog at hrow
  obtain ⟨e, _, hre⟩ := List.mem_map.mp hrow
  subst hre
  refine ⟨rfl, ?_⟩
  intro x hx
  exact List.eq_of_mem_replicate hx

/-- Witness for C7: in a 3-episode, 2-objective run with nonzero per-step
rewards, the logged row of episode 0 is all zeros. -/
theorem C7_reward_logger_always_zero_witness :
    ((0 : ℕ), List.replicate 2 (0 : ℚ)).2 = List.replicate 2 0 ∧
    ∀ x ∈ ((0 : ℕ), List.replicate 2 (0 : ℚ)).2, x = 0 :=
  C7_reward_logger_always_zero 2 3 (fun _ => [[1, 2]])
    ((0 : ℕ), List.replicate 2 (0 : ℚ)) (by decide)

/-! ## DataLogger (utils.py lines 143-165)

`DataLogger.add` dispatches on the python call shape `(*args, **kwargs)`:
a single positional argument or a single keyword argument is expanded as the
whole row; otherwise the arguments are passed to the namedtuple constructor
directly.  Argument values are embedded as scalars or sequences. -/

/-- A python value passed to `DataLogger.add`: a scalar or a sequence. -/
inductive PyVal where
  | num : ℚ → PyVal
  | seq : List PyVal → PyVal

/-- `Bool`-valued success test for `Except`. -/
def isOkE {α : Type} : Except String α → Bool
  | .ok _ => true
  | .error _ => false

/-- `self.tupleType(*args, **kwargs)`: namedtuple construction.  Positional
values fill the leading fields; keyword arguments must name exactly the
remaining fields, each once; any mismatch raises a TypeError. -/
def mkRow (fields : List String) (args : List PyVal)
    (kwargs : List (String × PyVal)) : Except String (List PyVal) :=
  if fields.length < args.length then .error "too many positional arguments"
  else if kwargs.any (fun kv => ! fields.contains kv.1) then
    .error "unexpected keyword argument"
  else if kwargs.any (fun kv => (fields.take args.length).contains kv.1) then
    .error "multiple values for argument"
  else if kwargs.length ≠ fields.length - args.length then
    .error "missing or duplicate arguments"
  else
    match (fields.drop args.length).mapM (fun f => kwargs.lookup f) with
    | some rest => .ok (args ++ rest)
    | none => .error "missing required argument"

/-- `DataLogger.add` (utils.py lines 154-162) over a logger with field schema
`fields` and row store `tupleList`.  A call with exactly one positional
argument and no keywords expands that argument as the whole row
(`_add_by_list(args[0])`); a call with no positional and exactly one keyword
argument expands the keyword's value (`_add_by_list(list(kwargs.values())[0])`,
the name being ignored); every other call is passed through directly
(`_add_by_params`).  A failing call returns the TypeError and appends
nothing. -/
def DataLogger.add (fields : List String) (tupleList : List (List PyVal))
    (args : List PyVal) (kwargs : List (String × PyVal)) :
    Except String (List (List PyVal)) :=
  if args.length = 1 ∧ kwargs.length = 0 then
    match args.headD (PyVal.num 0) with
    | PyVal.seq l => (mkRow fields l []).map (fun row => tupleList ++ [row])
    | PyVal.num _ => .error "TypeError: argument is not iterable"
  else if args.length = 0 ∧ kwargs.length = 1 then
    match (kwargs.headD ("", PyVal.num 0)).2 with
    | PyVal.seq l => (mkRow fields l []).map (fun row => tupleList ++ [row])
    | PyVal.num _ => .error "TypeError: argument is not iterable"
  else
    (mkRow fields args kwargs).map (fun row => tupleList ++ [row])

/-- C9 counterexample input: a one-field schema and a direct positional call
`add(5)` whose argument list matches the schema (as `mkRow` confirms), yet
`add` fails because the single positional argument is expanded as the whole
row and `5` is not iterable. -/
theorem C9_single_field_direct_call_fails :
    isOkE (mkRow ["value"] [PyVal.num 5] []) = true ∧
    isOkE (DataLogger.add ["value"] [] [PyVal.num 5] []) = false := by
  constructor
  · rfl
  · rfl

/-- `Except.map` preserves success. -/
theorem isOkE_map {α β : Type} (e : Except String α) (g : α → β) :
    isOkE (e.map g) = isOkE e := by
  cases e <;> rfl

/-- A successful `Except.map (fun row => log ++ [row])` appends one row. -/
theorem map_append_ok {α : Type} (e : Except String α) (log : List α)
    (log' : List α) (h : e.map (fun row => log ++ [row]) = .ok log') :
    ∃ row, log' = log ++ [row] := by
  cases e with
  | error msg => exact absurd h (by simp [Except.map])
  | ok row =>
    refine ⟨row, ?_⟩
    simp [Except.map] at h
    exact h.symm

/-- An `Option`-valued `mapM` succeeds exactly when every element succeeds. -/
theorem mapM_option_isSome {α β : Type} (f : α → Option β) :
    ∀ l : List α, (l.mapM f).isSome = true ↔ ∀ a ∈ l, (f a).isSome = true := by
  intro l
  induction l with
  | nil =>
    constructor
    · intro _ a ha
      exact absurd ha (List.not_mem_nil a)
    · intro _
      rw [List.mapM_nil]
      rfl
  | cons x xs ih =>
    rw [List.mapM_cons]
    cases hfx : f x with
    | none =>
      simp only [hfx, Bind.bind, Option.bind, Option.isSome]
      constructor
      · intro h; exact absurd h Bool.false_ne_true
      · intro h
        have h0 := h x (List.mem_cons_self x xs)
        rw [hfx] at h0
        exact absurd h0 (by simp [Option.isSome])
    | some y =>
      cases hxs : xs.mapM f with
      | none =>
        simp only [hfx, hxs, Bind.bind, Option.bind, Option.isSome]
        constructor
        · intro h; exact absurd h Bool.false_ne_true
        · intro h
          have h2 := ih.mpr (fun a ha => h a (List.mem_cons_of_mem x ha))
          rw [hxs] at h2
          exact absurd h2 (by simp [Option.isSome])
      | some rest =>
        simp only [hfx, hxs, Bind.bind, Option.bind, Option.isSome, pure]
        constructor
        · intro _ a ha
          cases List.mem_cons.mp ha with
          | inl h => rw [h, hfx]
          | inr h =>
            have h2 := ih.mp (by rw [hxs]; rfl)
            exact h2 a h
        · intro _; trivial

/-- Success condition of the namedtuple constructor on a pure positional row:
the row must have exactly one value per field. -/
theorem mkRow_positional_isOk (fields : List String) (l : List PyVal) :
    isOkE (mkRow fields l []) = true ↔ l.length = fields.length := by
  unfold mkRow
  by_cases h1 : fields.length < l.length
  · rw [if_pos h1]
    simp only [isOkE]
    constructor
    · intro h; exact absurd h Bool.false_ne_true
    · intro h; omega
  · rw [if_neg h1]
    simp only [List.any_nil, Bool.false_eq_true, if_false, List.length_nil]
    by_cases h2 : l.length = fields.length
    · rw [if_neg (by omega)]
      rw [List.drop_eq_nil_of_le (by omega), List.mapM_nil]
      simp only [pure]
      constructor
      · intro _; exact h2
      · intro _; rfl
    · rw [if_pos (by omega)]
      simp only [isOkE]
      constructor
      · intro h; exact absurd h Bool.false_ne_true
      · intro h; exact absurd h h2

/-- The direct-call success condition: positional arguments do not overflow
the schema, and the keyword arguments supply exactly the remaining fields. -/
def directArgsMatch (fields : List String) (args : List PyVal)
    (kwargs : List (String × PyVal)) : Prop :=
  args.length ≤ fields.length ∧
  kwargs.length = fields.length - args.length ∧
  (∀ kv ∈ kwargs, kv.1 ∈ fields.drop args.length) ∧
  (∀ f ∈ fields.drop args.length, (kwargs.lookup f).isSome = true)

/-- Success condition of the namedtuple constructor for a direct
positional/keyword call, for a schema with distinct field names. -/
theorem mkRow_isOk_iff (fields : List String) (args : List PyVal)
    (kwargs : List (String × PyVal)) (hnd : fields.Nodup) :
    isOkE (mkRow fields args kwargs) = true ↔ directArgsMatch fields args kwargs := by
  have hdisj : ∀ a : String, a ∈ fields.take args.length →
      a ∈ fields.drop args.length → False := by
    intro a hta hda
    have hnd2 : (fields.take args.length ++ fields.drop args.length).Nodup := by
      rw [List.take_append_drop]
      exact hnd
    exact List.disjoint_of_nodup_append hnd2 hta hda
  unfold mkRow directArgsMatch
  by_cases h1 : fields.length < args.length
  · rw [if_pos h1]
    simp only [isOkE]
    constructor
    · intro h; exact absurd h Bool.false_ne_true
    · rintro ⟨hle, -, -, -⟩; omega
  · rw [if_neg h1]
    by_cases h2 : kwargs.any (fun kv => ! fields.contains kv.1) = true
    · rw [if_pos h2]
      simp only [isOkE]
      constructor
      · intro h; exact absurd h Bool.false_ne_true
      · rintro ⟨-, -, hmem, -⟩
        obtain ⟨kv, hkv, hnc⟩ := List.any_eq_true.mp h2
        rw [Bool.not_eq_true'] at hnc
        have hin : kv.1 ∈ fields := List.mem_of_mem_drop (hmem kv hkv)
        have hcont : fields.contains kv.1 = true := List.elem_iff.mpr hin
        rw [hnc] at hcont
        exact absurd hcont Bool.false_ne_true
    · rw [if_neg h2]
      by_cases h3 : kwargs.any (fun kv => (fields.take args.length).contains kv.1) = true
      · rw [if_pos h3]
        simp only [isOkE]
        constructor
        · intro h; exact absurd h Bool.false_ne_true
        · rintro ⟨-, -, hmem, -⟩
          obtain ⟨kv, hkv, hc⟩ := List.any_eq_true.mp h3
          have hta : kv.1 ∈ fields.take args.length := List.elem_iff.mp hc
          exact (hdisj kv.1 hta (hmem kv hkv)).elim
      · rw [if_neg h3]
        by_cases h4 : kwargs.length = fields.length - args.length
        · rw [if_neg (by omega)]
          cases hm : (fields.drop args.length).mapM (fun f => kwargs.lookup f) with
          | none =>
            simp only [isOkE]
            constructor
            · intro h; exact absurd h Bool.false_ne_true
            · rintro ⟨-, -, -, hlook⟩
              have : ((fields.drop args.length).mapM
                  (fun f => kwargs.lookup f)).isSome = true :=
                (mapM_option_isSome _ _).mpr hlook
              rw [hm] at this
              exact absurd this (by simp [Option.isSome])
          | some rest =>
            simp only [isOkE]
            constructor
            · intro _
              refine ⟨by omega, h4, ?_, ?_⟩
              · intro kv hkv
                have hnotany := List.any_eq_false.mp (Bool.eq_false_iff.mpr h2) kv hkv
                have hin : kv.1 ∈ fields := by
                  rw [Bool.not_eq_true'] at hnotany
                  have : fields.contains kv.1 = true := by
                    cases hcc : fields.contains kv.1 with
                    | true => rfl
                    | false => exact absurd hcc hnotany
                  exact List.elem_iff.mp this
                have hnta := List.any_eq_false.mp (Bool.eq_false_iff.mpr h3) kv hkv
                have hnotin : kv.1 ∉ fields.take args.length := by
                  intro hta
                  exact hnta (List.elem_iff.mpr hta)
                rw [← List.take_append_drop args.length fields] at hin
                cases List.mem_append.mp hin with
                | inl h => exact absurd h hnotin
                | inr h => exact h
              · intro f hf
                exact (mapM_option_isSome _ _).mp (by rw [hm]; rfl) f hf
            · intro _; trivial
        · rw [if_pos (by omega)]
          simp only [isOkE]
          constructor
          · intro h; exact absurd h Bool.false_ne_true
          · rintro ⟨-, hcount, -, -⟩; exact absurd hcount h4

/-- C9 (amended): a call with exactly one positional argument and no keywords
is always expanded as a whole row (it succeeds exactly when the argument is a
sequence of schema length, even when a single non-sequence value would match a
one-field schema directly); a call with no positional and exactly one keyword
argument is likewise expanded from the keyword's value, its name ignored;
every other call succeeds exactly when it matches the schema directly.  Every
successful call appends exactly one row; a failing call appends nothing. -/
theorem C9_add_dispatch (fields : List String) (log : List (List PyVal))
    (args : List PyVal) (kwargs : List (String × PyVal)) (hnd : fields.Nodup) :
    (∀ log', DataLogger.add fields log args kwargs = .ok log' →
      ∃ row, log' = log ++ [row]) ∧
    (isOkE (DataLogger.add fields log args kwargs) = true ↔
      (if args.length = 1 ∧ kwargs.length = 0 then
        ∃ l, args.headD (PyVal.num 0) = PyVal.seq l ∧ l.length = fields.length
      else if args.length = 0 ∧ kwargs.length = 1 then
        ∃ l, (kwargs.headD ("", PyVal.num 0)).2 = PyVal.seq l ∧
          l.length = fields.length
      else directArgsMatch fields args kwargs)) := by
  unfold DataLogger.add
  by_cases hc1 : args.length = 1 ∧ kwargs.length = 0
  · rw [if_pos hc1, if_pos hc1]
    cases hhead : args.headD (PyVal.num 0) with
    | num q =>
      constructor
      · intro log' h
        exact Except.noConfusion h
      · constructor
        · intro h
          exact absurd h Bool.false_ne_true
        · rintro ⟨l, hl, -⟩
          exact PyVal.noConfusion hl
    | seq l =>
      constructor
      · intro log' h
        exact map_append_ok _ _ _ h
      · show isOkE ((mkRow fields l []).map (fun row => log ++ [row])) = true ↔ _
        rw [isOkE_map, mkRow_positional_isOk]
        constructor
        · intro h
          exact ⟨l, rfl, h⟩
        · rintro ⟨l', hl', hlen⟩
          injection hl' with h2
          rw [h2]
          exact hlen
  · rw [if_neg hc1, if_neg hc1]
    by_cases hc2 : args.length = 0 ∧ kwargs.length = 1
    · rw [if_pos hc2, if_pos hc2]
      cases hhead : (kwargs.headD ("", PyVal.num 0)).2 with
      | num q =>
        constructor
        · intro log' h
          exact Except.noConfusion h
        · constructor
          · intro h
            exact absurd h Bool.false_ne_true
          · rintro ⟨l, hl, -⟩
            exact PyVal.noConfusion hl
      | seq l =>
        constructor
        · intro log' h
          exact map_append_ok _ _ _ h
        · show isOkE ((mkRow fields l []).map (fun row => log ++ [row])) = true ↔ _
          rw [isOkE_map, mkRow_positional_isOk]
          constructor
          · intro h
            exact ⟨l, rfl, h⟩
          · rintro ⟨l', hl', hlen⟩
            injection hl' with h2
            rw [h2]
            exact hlen
    · rw [if_neg hc2, if_neg hc2]
      constructor
      · intro log' h
        exact map_append_ok _ _ _ h
      · rw [isOkE_map]
        exact mkRow_isOk_iff fields args kwargs hnd

/-- Witness for the amended C9 at a two-field schema with a single positional
sequence argument. -/
theorem C9_add_dispatch_witness :
    (∀ log', DataLogger.add ["episode", "loss"] []
        [PyVal.seq [PyVal.num 3, PyVal.num 7]] [] = .ok log' →
      ∃ row, log' = [] ++ [row]) ∧
    (isOkE (DataLogger.add ["episode", "loss"] []
        [PyVal.seq [PyVal.num 3, PyVal.num 7]] []) = true ↔
      (if ([PyVal.seq [PyVal.num 3, PyVal.num 7]] : List PyVal).length = 1 ∧
          ([] : List (String × PyVal)).length = 0 then
        ∃ l, ([PyVal.seq [PyVal.num 3, PyVal.num 7]] : List PyVal).headD
            (PyVal.num 0) = PyVal.seq l ∧
          l.length = (["episode", "loss"] : List String).length
      else if ([PyVal.seq [PyVal.num 3, PyVal.num 7]] : List PyVal).length = 0 ∧
          ([] : List (String × PyVal)).length = 1 then
        ∃ l, (([] : List (String × PyVal)).headD ("", PyVal.num 0)).2 =
            PyVal.seq l ∧
          l.length = (["episode", "loss"] : List String).length
      else directArgsMatch ["episode", "loss"]
        [PyVal.seq [PyVal.num 3, PyVal.num 7]] [])) :=
  C9_add_dispatch ["episode", "loss"] [] [PyVal.seq [PyVal.num 3, PyVal.num 7]] []
    (by decide)

end MomaRL
